import Mathlib

/-!
Shallow embedding of the deterministic pseudorandom value-generation core
(`src/lib.rs`): the `Seed` type, the `PrngKey` and `Generate<T>` traits, the
seed-key-type mixing algorithm of `Prng::rng`, and the sampling wiring of
`Prng::generate`.  128-bit and 64-bit machine integers are embedded as `Nat`
with explicit bounds where the width matters; all bitwise operations (`^^^`,
`<<<`, `|||`) preserve the 128-bit range on in-range inputs, so no reduction
modulo `2 ^ 128` is required.
-/

namespace ProceduralGeneration

/-- The `Seed` type of the source: `pub struct Seed(pub u128)`, a 128-bit value
representing one reproducible universe of randomness.  The wrapped value is a
natural number, bounded by `2 ^ 128` wherever the width matters. -/
structure Seed where
  val : Nat
deriving DecidableEq, Repr

/-- Modelled from the spec: the external uniform bit generator
(`rand_pcg::Pcg64Mcg`) is out of scope; only its 128-bit internal state
matters here. -/
structure Pcg64Mcg where
  state : Nat
deriving DecidableEq, Repr

/-- Modelled from the spec: the external bit generator's constructor fixes the
lowest bit of the supplied 128-bit seed to a constant; the source comment in
`Prng::rng` records that `rand_pcg::Pcg64Mcg::new` sets the lowest bit to 1,
so the constructor ORs the seed with 1. -/
def Pcg64Mcg.new (seed : Nat) : Pcg64Mcg :=
  ⟨seed ||| 1⟩

/-- The `PrngKey` trait: a key type `κ` reporting a deterministic 64-bit key
value via `fn key(&self) -> u64`.  The returned value is bounded by `2 ^ 64`
wherever the width matters. -/
structure PrngKeyInst (κ : Type) where
  key : κ → Nat

/-- The `Generate<T>` trait for a key type `κ`, together with the external
distribution-sampling primitive: the hard-coded 128-bit `XOR` constant, and
the declared distribution's `sample`, which makes one draw from the generator
and returns the sampled value along with the advanced generator. -/
structure GenerateInst (κ T : Type) where
  XOR : Nat
  sample : Pcg64Mcg → T × Pcg64Mcg

/-- The `rng_seed` computation inside `Prng::rng` for `Seed`:
`self.0 ^ K::XOR ^ ((key.key() as u128) << 64)`.  Zero-extending the 64-bit
key value to 128 bits is the identity on `Nat`. -/
def Seed.rngSeed {κ T : Type} (pk : PrngKeyInst κ) (g : GenerateInst κ T)
    (s : Seed) (k : κ) : Nat :=
  s.val ^^^ g.XOR ^^^ ((pk.key k) <<< 64)

/-- `Prng::rng` for `Seed`: build the bit generator from the mixed seed,
`rand_pcg::Pcg64Mcg::new(rng_seed)`. -/
def Seed.rng {κ T : Type} (pk : PrngKeyInst κ) (g : GenerateInst κ T)
    (s : Seed) (k : κ) : Pcg64Mcg :=
  Pcg64Mcg.new (Seed.rngSeed pk g s k)

/-- `Prng::generate` for `Seed`: derive the generator with `self.rng(key)` and
sample one `T` from the declared distribution. -/
def Seed.generate {κ T : Type} (pk : PrngKeyInst κ) (g : GenerateInst κ T)
    (s : Seed) (k : κ) : T :=
  (g.sample (Seed.rng pk g s k)).1

/-- Modelled from the spec: the string-hashing collaborator (blake3) is an
external fixed-output cryptographic hash producing a 32-byte digest; it is
kept abstract as an arbitrary function from the input bytes to the 32 digest
bytes. -/
structure HashFn where
  digest : List Nat → Fin 32 → Nat

/-- The UTF-8 bytes of a string, `seed.as_bytes()` in the source. -/
def utf8Bytes (s : String) : List Nat :=
  s.toUTF8.toList.map UInt8.toNat

/-- `u128::from_ne_bytes` applied to 16 bytes, in little-endian byte order
(the native order of the reference platform): byte `i` contributes at bit
`8 * i`. -/
def u128FromNeBytes (b : Fin 16 → Nat) : Nat :=
  ∑ i : Fin 16, (b i % 256) * 256 ^ (i : Nat)

/-- `Seed::new_from_str`: hash the UTF-8 bytes of the string, take the first
16 bytes of the digest (`std::array::from_fn(|i| hash.as_bytes()[i])`),
reinterpret them as a `u128` in native byte order, and wrap the result. -/
def Seed.new_from_str (H : HashFn) (s : String) : Seed :=
  Seed.mk (u128FromNeBytes (fun i =>
    H.digest (utf8Bytes s) (Fin.castLE (by omega) i)))

/-- `From<u128> for Seed`: wrap the 128-bit value directly. -/
def Seed.ofU128 (value : Nat) : Seed :=
  Seed.mk value

/-- The `Distribution<Seed>` implementation for `Standard`:
`Seed(rng.gen())`, one uniform 128-bit draw wrapped unchanged.  The generator
is abstract: any state type `σ` with a one-draw function returning the `u128`
and the advanced state. -/
def sampleSeedStandard {σ : Type} (gen : σ → Nat × σ) (st : σ) : Seed × σ :=
  (Seed.mk (gen st).1, (gen st).2)

/-- Concrete key fixture for witnesses: keys are natural numbers, reduced to
the 64-bit range, mirroring `ValueKey(u64)` from the source's tests. -/
def natKey : PrngKeyInst Nat :=
  ⟨fun n => n % 2 ^ 64⟩

/-- Concrete capability fixture for witnesses: `XOR = 1` as in the source's
`Generate<Value1>` test impl, sampling the generator state itself. -/
def stateGen : GenerateInst Nat Nat :=
  ⟨1, fun r => (r.state, Pcg64Mcg.mk (r.state + 1))⟩

/-- Concrete unit-key fixture for witnesses: the zero-information key of the
source's `unit_key_return_consistent_values` test, with key value 0. -/
def unitKey : PrngKeyInst Unit :=
  ⟨fun _ => 0⟩

/-- Concrete capability fixture for witnesses with `XOR = 0`. -/
def zeroGen : GenerateInst Unit Nat :=
  ⟨0, fun r => (r.state, r)⟩

/-- Concrete hash fixture for witnesses: a constant 32-byte digest. -/
def constHash : HashFn :=
  ⟨fun _ _ => 7⟩

/-- Claim C1: generation is a pure, deterministic function of exactly the seed
bits, the key's `key()` value, the type's `XOR` constant, and the type's
distribution: two calls agreeing on those four inputs return equal values. -/
theorem generate_deterministic {κ₁ κ₂ T : Type}
    (pk₁ : PrngKeyInst κ₁) (pk₂ : PrngKeyInst κ₂)
    (g₁ : GenerateInst κ₁ T) (g₂ : GenerateInst κ₂ T)
    (s₁ s₂ : Seed) (k₁ : κ₁) (k₂ : κ₂)
    (hs : s₁.val = s₂.val) (hk : pk₁.key k₁ = pk₂.key k₂)
    (hx : g₁.XOR = g₂.XOR) (hd : g₁.sample = g₂.sample) :
    Seed.generate pk₁ g₁ s₁ k₁ = Seed.generate pk₂ g₂ s₂ k₂ := by
  simp [Seed.generate, Seed.rng, Seed.rngSeed, hs, hk, hx, hd]

/-- Witness for C1 at seed 3, key 7, the concrete fixtures. -/
theorem generate_deterministic_witness :
    (Seed.mk 3).val = (Seed.mk 3).val ∧
      natKey.key 7 = natKey.key 7 ∧
      stateGen.XOR = stateGen.XOR ∧
      stateGen.sample = stateGen.sample ∧
      Seed.generate natKey stateGen (Seed.mk 3) 7
        = Seed.generate natKey stateGen (Seed.mk 3) 7 :=
  ⟨rfl, rfl, rfl, rfl,
    generate_deterministic natKey natKey stateGen stateGen
      (Seed.mk 3) (Seed.mk 3) 7 7 rfl rfl rfl rfl⟩

/-- Claim C2: the derived generator seed is
`S.0 ^^^ K::XOR ^^^ (key.key() <<< 64)`, and that exact value is what is
passed to the bit generator's constructor. -/
theorem rng_seed_formula {κ T : Type} (pk : PrngKeyInst κ) (g : GenerateInst κ T)
    (s : Seed) (k : κ) :
    Seed.rngSeed pk g s k = s.val ^^^ g.XOR ^^^ ((pk.key k) <<< 64) ∧
      Seed.rng pk g s k = Pcg64Mcg.new (Seed.rngSeed pk g s k) :=
  ⟨rfl, rfl⟩

/-- Claim C4: for a fixed key and a fixed XOR constant, two distinct seeds
yield distinct derived 128-bit states, since XOR with fixed operands is
injective. -/
theorem rngSeed_seed_separation {κ T : Type} (pk : PrngKeyInst κ)
    (g : GenerateInst κ T) (s₁ s₂ : Seed) (k : κ) (h : s₁ ≠ s₂) :
    Seed.rngSeed pk g s₁ k ≠ Seed.rngSeed pk g s₂ k := by
  intro heq
  apply h
  have h₂ := congrArg (fun m => m ^^^ ((pk.key k) <<< 64) ^^^ g.XOR) heq
  simp only [Seed.rngSeed, Nat.xor_assoc] at h₂
  simp only [Nat.xor_cancel_right, ← Nat.xor_assoc] at h₂
  have h₃ := congrArg (fun m => m ^^^ g.XOR) h₂
  simp only [Nat.xor_cancel_right] at h₃
  cases s₁
  cases s₂
  simpa using h₃

/-- Witness for C4 at seeds 0 and 1, key 0. -/
theorem rngSeed_seed_separation_witness :
    Seed.mk 0 ≠ Seed.mk 1 ∧
      Seed.rngSeed natKey stateGen (Seed.mk 0) 0
        ≠ Seed.rngSeed natKey stateGen (Seed.mk 1) 0 :=
  ⟨by decide,
    rngSeed_seed_separation natKey stateGen (Seed.mk 0) (Seed.mk 1) 0
      (by decide)⟩

/-- Claim C5: calling `generate` returns exactly the value drawn by obtaining
the raw generator via `rng` and sampling one `T` from the declared
distribution. -/
theorem generate_eq_rng_draw {κ T : Type} (pk : PrngKeyInst κ)
    (g : GenerateInst κ T) (s : Seed) (k : κ) :
    Seed.generate pk g s k = (g.sample (Seed.rng pk g s k)).1 :=
  rfl

/-- Claim C7: every public operation is total over its typed domain: seed
construction from any 128-bit integer or any string always yields a value,
and `rng` and `generate` always yield a value — there is no runtime error
path. -/
theorem operations_total {κ T : Type} (pk : PrngKeyInst κ) (g : GenerateInst κ T)
    (H : HashFn) (n : Nat) (str : String) (s : Seed) (k : κ) :
    (∃ x, Seed.ofU128 n = x) ∧ (∃ x, Seed.new_from_str H str = x) ∧
      (∃ x, Seed.rng pk g s k = x) ∧ (∃ t, Seed.generate pk g s k = t) :=
  ⟨⟨_, rfl⟩, ⟨_, rfl⟩, ⟨_, rfl⟩, ⟨_, rfl⟩⟩

/-- Claim C8: derivation depends on the key only through its 64-bit `key()`
value: two keys with equal key values receive identical generators and
identical generated values. -/
theorem key_value_determines {κ T : Type} (pk : PrngKeyInst κ)
    (g : GenerateInst κ T) (s : Seed) (a b : κ) (h : pk.key a = pk.key b) :
    Seed.rng pk g s a = Seed.rng pk g s b ∧
      Seed.generate pk g s a = Seed.generate pk g s b := by
  constructor <;> simp [Seed.rng, Seed.generate, Seed.rngSeed, h]

/-- Witness for C8: the logically distinct keys 0 and `2 ^ 64` share the key
value 0 and receive the same generator and value. -/
theorem key_value_determines_witness :
    natKey.key 0 = natKey.key (2 ^ 64) ∧
      Seed.rng natKey stateGen (Seed.mk 5) 0
          = Seed.rng natKey stateGen (Seed.mk 5) (2 ^ 64) ∧
        Seed.generate natKey stateGen (Seed.mk 5) 0
          = Seed.generate natKey stateGen (Seed.mk 5) (2 ^ 64) :=
  ⟨by decide,
    key_value_determines natKey stateGen (Seed.mk 5) 0 (2 ^ 64) (by decide)⟩

/-- Claim C9: for key value 0 and XOR constant 0, the derived state is the
bare seed value, and the generator coincides with an unkeyed use of the
seed. -/
theorem zero_key_zero_xor {κ T : Type} (pk : PrngKeyInst κ)
    (g : GenerateInst κ T) (s : Seed) (k : κ)
    (hk : pk.key k = 0) (hx : g.XOR = 0) :
    Seed.rngSeed pk g s k = s.val ∧ Seed.rng pk g s k = Pcg64Mcg.new s.val := by
  simp [Seed.rngSeed, Seed.rng, hk, hx, Nat.zero_shiftLeft]

/-- Witness for C9 at the unit key with XOR constant 0 and seed 42. -/
theorem zero_key_zero_xor_witness :
    unitKey.key () = 0 ∧ zeroGen.XOR = 0 ∧
      Seed.rngSeed unitKey zeroGen (Seed.mk 42) () = (Seed.mk 42).val ∧
        Seed.rng unitKey zeroGen (Seed.mk 42) () = Pcg64Mcg.new (Seed.mk 42).val :=
  ⟨rfl, rfl, zero_key_zero_xor unitKey zeroGen (Seed.mk 42) () rfl rfl⟩

/-- Helper for key separation: the shifted key occupies bits 64–127 of the
mix, a region untouched by ORing the low bit to 1, so two 64-bit keys that
differ give different post-constructor values for any common `x`. -/
theorem mix_or_one_ne (x ka kb : Nat) (ha : ka < 2 ^ 64) (hb : kb < 2 ^ 64)
    (hne : ka ≠ kb) :
    ((x ^^^ (ka <<< 64)) ||| 1) ≠ ((x ^^^ (kb <<< 64)) ||| 1) := by
  obtain ⟨i, hi⟩ := Nat.ne_implies_bit_diff hne
  have hilt : i < 64 := by
    by_contra hge
    push_neg at hge
    have h64 : (2 : Nat) ^ 64 ≤ 2 ^ i := Nat.pow_le_pow_right (by omega) hge
    rw [Nat.testBit_lt_two_pow (lt_of_lt_of_le ha h64),
      Nat.testBit_lt_two_pow (lt_of_lt_of_le hb h64)] at hi
    exact hi rfl
  intro heq
  have hone : Nat.testBit 1 (64 + i) = false := by
    rw [← Bool.not_eq_true, Nat.testBit_one_eq_true_iff_self_eq_zero]
    omega
  have hge : 64 + i ≥ 64 := Nat.le_add_right 64 i
  have hbit := congrArg (fun m => Nat.testBit m (64 + i)) heq
  simp only [Nat.testBit_or, Nat.testBit_xor, Nat.testBit_shiftLeft, hone,
    Bool.or_false, hge, decide_True, Bool.true_and] at hbit
  rw [show 64 + i - 64 = i by omega] at hbit
  exact hi (Bool.xor_left_inj.mp hbit)

/-- Claim C3: for a fixed seed and value type, two keys with distinct 64-bit
key values produce distinct generator states: the shifted key occupies bits
64–127 of the mix, disjoint from the low bit that the generator's constructor
fixes to 1. -/
theorem rng_key_separation {κ T : Type} (pk : PrngKeyInst κ)
    (g : GenerateInst κ T) (s : Seed) (a b : κ)
    (ha : pk.key a < 2 ^ 64) (hb : pk.key b < 2 ^ 64)
    (hne : pk.key a ≠ pk.key b) :
    Seed.rng pk g s a ≠ Seed.rng pk g s b := by
  intro heq
  have hst := congrArg Pcg64Mcg.state heq
  simp only [Seed.rng, Seed.rngSeed, Pcg64Mcg.new] at hst
  exact mix_or_one_ne (s.val ^^^ g.XOR) (pk.key a) (pk.key b) ha hb hne hst

/-- Witness for C3 at keys 0 and 1 under seed 9. -/
theorem rng_key_separation_witness :
    natKey.key 0 < 2 ^ 64 ∧ natKey.key 1 < 2 ^ 64 ∧
      natKey.key 0 ≠ natKey.key 1 ∧
        Seed.rng natKey stateGen (Seed.mk 9) 0
          ≠ Seed.rng natKey stateGen (Seed.mk 9) 1 :=
  ⟨by decide, by decide, by decide,
    rng_key_separation natKey stateGen (Seed.mk 9) 0 1 (by decide) (by decide)
      (by decide)⟩

/-- Claim C6: `Seed::new_from_str` hashes the string's UTF-8 bytes,
reinterprets the first 16 digest bytes as a 128-bit integer in native byte
order, and wraps it as the seed; hashing the same string twice produces the
same seed. -/
theorem new_from_str_spec (H : HashFn) (s t : String) (hst : s = t) :
    Seed.new_from_str H s
        = Seed.mk (u128FromNeBytes (fun i =>
            H.digest (utf8Bytes s) (Fin.castLE (by omega) i))) ∧
      Seed.new_from_str H s = Seed.new_from_str H t := by
  subst hst
  exact ⟨rfl, rfl⟩

/-- Witness for C6 at the constant hash and the string of the source's
string-seed test. -/
theorem new_from_str_spec_witness :
    "value test" = "value test" ∧
      (Seed.new_from_str constHash "value test"
          = Seed.mk (u128FromNeBytes (fun i =>
              constHash.digest (utf8Bytes "value test") (Fin.castLE (by omega) i))) ∧
        Seed.new_from_str constHash "value test"
          = Seed.new_from_str constHash "value test") :=
  ⟨rfl, new_from_str_spec constHash "value test" "value test" rfl⟩

/-- Claim C10: sampling a `Seed` from the `Standard` distribution makes
exactly one 128-bit draw and returns it wrapped unchanged, advancing the
generator by that one draw; hence every 128-bit value is a reachable seed. -/
theorem sample_seed_standard_spec {σ : Type} (gen : σ → Nat × σ) (st : σ) :
    sampleSeedStandard gen st = (Seed.mk (gen st).1, (gen st).2) ∧
      ∀ v : Nat, ∃ g2 : Unit → Nat × Unit,
        (sampleSeedStandard g2 ()).1 = Seed.mk v :=
  ⟨rfl, fun v => ⟨fun _ => (v, ()), rfl⟩⟩

end ProceduralGeneration
